import Mathlib

/-!
Verification development for the textify repository (frizadiga/textify).

The development shallowly embeds the Rust sources:
  * src/utils.rs   : `format_file_size`, `is_file_empty_or_nonexistent`,
                     `should_exclude_file`, `is_binary_file`
  * src/main.rs    : the sequential pipeline `convert_repository_to_text`
  * src/core.rs    : the parallel pipeline `convert_repository_to_text`

Filesystem interaction is modelled by passing each file's observable data
(metadata results, byte content, decode results) explicitly; machine
integers (`u64`, `usize`, byte values) are modelled as `Nat`, the `f64`
threshold argument as `ℚ`.  Paths are modelled as lists of characters
(the `to_string_lossy` rendering of the path), as the code only ever
inspects that string and the final component.
-/

namespace Textify

/-! ## utils.rs: format_file_size -/

/-- Round `num / den` to the nearest integer, ties to even.  This is the
rounding Rust's `{:.1}` float formatting performs on the exact value of the
formatted double (std.fmt documents "round half to even"); in
`format_file_size` the formatted double is exactly `size / 1024 ^ k`
(a division of an exactly-converted `u64` by a power of two), so the exact
rational rounding below reproduces the printed digits for `size < 2 ^ 53`. -/
def roundHalfEven (num den : Nat) : Nat :=
  let q := num / den
  let r := num % den
  if 2 * r < den then q
  else if den < 2 * r then q + 1
  else if q % 2 = 0 then q else q + 1

/-- The unit table `UNITS` of `format_file_size` in src/utils.rs. -/
def sizeUnits : List String := ["B", "KB", "MB", "GB"]

/-- Embeds `utils::format_file_size`.  The Rust loop divides an `f64` copy of
`size` by `1024.0` while it is `≥ 1024.0` and fewer than three divisions have
happened; both the conversion `size as f64` and each division are exact in
`f64` for `size < 2 ^ 53`, so the loop counter equals the `unit_index` below
and the final value is exactly `size / 1024 ^ unit_index`.  With
`unit_index = 0` Rust prints `{} B` on `size as u64` (the original value);
otherwise `{:.1} <unit>`, i.e. one decimal digit, rounding half to even. -/
def format_file_size (size : Nat) : String :=
  let unit_index : Nat :=
    if size < 1024 then 0
    else if size < 1024 * 1024 then 1
    else if size < 1024 * 1024 * 1024 then 2
    else 3
  if unit_index = 0 then
    toString size ++ " B"
  else
    let tenths := roundHalfEven (10 * size) (1024 ^ unit_index)
    toString (tenths / 10) ++ "." ++ toString (tenths % 10) ++ " "
      ++ sizeUnits.getD unit_index ""

/-! ## utils.rs: should_exclude_file -/

/-- Embeds `utils::is_file_empty_or_nonexistent`.  The source first tests
`path.exists()` and then `fs::metadata`; `statSize` is the combined
filesystem answer: `none` when the path does not exist or its metadata
cannot be read, `some n` when metadata reports length `n`. -/
def is_file_empty_or_nonexistent (statSize : Option Nat) : Bool :=
  match statSize with
  | none => true
  | some n => n == 0

/-- The `excluded_dirs` table of `utils::should_exclude_file`. -/
def excludedDirs : List (List Char) :=
  ["node_modules".data, ".git".data, ".svn".data, ".hg".data, "target".data,
   "build".data, "dist".data, ".vscode".data, ".idea".data,
   "__pycache__".data, ".pytest_cache".data, "coverage".data,
   ".nyc_output".data, "vendor".data, "deps".data]

/-- The `excluded_patterns` table of `utils::should_exclude_file`. -/
def excludedPatterns : List (List Char) :=
  [".DS_Store".data, "Thumbs.db".data, "Desktop.ini".data, ".gitignore".data,
   ".gitkeep".data, ".dockerignore".data, "Dockerfile".data,
   "Cargo.lock".data, "package-lock.json".data, "yarn.lock".data,
   "pnpm-lock.yaml".data, "composer.lock".data, "go.sum".data]

/-- Embeds Rust's `Path::file_name().and_then(to_str).unwrap_or("")` on a
Unix path string: components are the non-empty pieces between `/`
separators with `.` components dropped; the file name is the last
component, or empty when there is none or it is `..` (Rust returns `None`
for a path terminating in `..`). -/
def rustFileName (path : List Char) : List Char :=
  let comps := (path.splitOn '/').filter (fun s => !s.isEmpty && s != ['.'])
  match comps.getLast? with
  | none => []
  | some s => if s == ['.', '.'] then [] else s

/-- Embeds `utils::should_exclude_file`.  `path` is the
`to_string_lossy` rendering of the path; `statSize` is the filesystem
answer used by the final `is_file_empty_or_nonexistent` check.  The Rust
code lowercases the whole path string (Unicode lowercasing; modelled with
`Char.toLower`, which agrees on ASCII, and every exclusion table entry is
ASCII), looks for each excluded directory name bounded by `/` or `\`
separators or at the start of the string with a following separator,
then compares the unlowercased file name against the excluded file names,
and finally excludes empty or vanished files. -/
def should_exclude_file (path : List Char) (statSize : Option Nat) : Bool :=
  let path_str := path.map Char.toLower
  if excludedDirs.any (fun d =>
      decide (('/' :: (d ++ ['/'])) <:+: path_str) ||
      decide ((d ++ ['/']) <+: path_str) ||
      decide (('\\' :: (d ++ ['\\'])) <:+: path_str) ||
      decide ((d ++ ['\\']) <+: path_str)) then true
  else if excludedPatterns.any (fun pat => rustFileName path == pat) then true
  else if is_file_empty_or_nonexistent statSize then true
  else false

/-! ## utils.rs: is_binary_file -/

/-- The `binary_extensions` table of `utils::is_binary_file`. -/
def binaryExtensions : List (List Char) :=
  ["jpg".data, "jpeg".data, "png".data, "gif".data, "bmp".data, "tiff".data,
   "ico".data, "svg".data, "webp".data,
   "mp4".data, "avi".data, "mov".data, "wmv".data, "flv".data, "webm".data,
   "mkv".data,
   "mp3".data, "wav".data, "flac".data, "aac".data, "ogg".data, "wma".data,
   "pdf".data, "doc".data, "docx".data, "xls".data, "xlsx".data, "ppt".data,
   "pptx".data,
   "zip".data, "tar".data, "gz".data, "bz2".data, "7z".data, "rar".data,
   "dmg".data,
   "exe".data, "dll".data, "so".data, "dylib".data, "bin".data,
   "ttf".data, "otf".data, "woff".data, "woff2".data, "eot".data,
   "db".data, "sqlite".data, "sqlite3".data]

/-- The extension fast path of `utils::is_binary_file`: the lowercased
extension (`ext` is `path.extension()`, `none` when the path has no
extension) is looked up in the binary-extension table. -/
def extIsBinary (ext : Option (List Char)) : Bool :=
  match ext with
  | some e => binaryExtensions.contains (e.map Char.toLower)
  | none => false

/-- The control-character count of `utils::is_binary_file`: bytes below 32
other than tab (9), line feed (10) and carriage return (13). -/
def nonPrintableCount (sample : List Nat) : Nat :=
  (sample.filter (fun b =>
    decide (b < 32) && !(b == 9) && !(b == 10) && !(b == 13))).length

/-- Embeds `utils::is_binary_file`.  `ext` is the path's extension,
`readResult` the outcome of `fs::read` (`none` = the read failed).  The
sample is the first 8192 bytes.  The Rust ratio test compares
`count as f64 / len as f64 > 0.3` in `f64`; for `len ≤ 8192` this agrees
with the exact rational comparison `count / len > 3 / 10`, i.e.
`3 * len < 10 * count`, because a rational with denominator at most 8192
differing from 3/10 differs by at least 1/81920, far above the `f64`
rounding error, while an exact 3/10 rounds to the same double as the
literal `0.3` (and an empty sample gives `NaN > 0.3 = false`, matching
`3 * 0 < 10 * 0 = false`).  Every `return` in the source is `Ok(..)`;
the error component is kept to mirror the `anyhow::Result` signature. -/
def is_binary_file (ext : Option (List Char)) (readResult : Option (List Nat)) :
    Except Unit Bool :=
  if extIsBinary ext then .ok true
  else
    match readResult with
    | none => .ok false
    | some bytes =>
      let sample := bytes.take 8192
      if 0 ∈ sample then .ok true
      else .ok (decide (3 * sample.length < 10 * nonPrintableCount sample))

/-! ## The pipelines of main.rs and core.rs

Both `convert_repository_to_text` functions walk the tree, pre-filter with
`should_exclude_file`, and then run a per-file step: stat the file
(`fs::metadata(file_path)?` — the `?` makes a stat failure fatal), decide
whether to skip (binary check, then size threshold, both bypassed by
`include_all`), and otherwise write one formatted record, incrementing the
processed or skipped counter.  The filesystem is modelled per candidate by
`FileData`; progress-bar and debug printing are ignored (they do not touch
records or counters), and output writes are assumed to succeed (an
aggregation write failure is a separate fatal path not modelled here). -/

/-- A discovered regular file: its path string, the path relative to the
root as displayed in the record header (`strip_prefix` of a walked path
under the root always succeeds), and its extension (`Path::extension()`). -/
structure FileCandidate where
  path : List Char
  relPath : String
  ext : Option (List Char)

/-- The filesystem's observable behaviour for one candidate.  `walkStat`
is the metadata answer during discovery (used by `should_exclude_file`);
`statSize` is the later `fs::metadata` answer in the processing loop (the
two are separate system calls, so a file can vanish in between);
`readBytes` is the result of reading the file's bytes (`fs::read` for
binary sampling and the content read — `none` = the read fails);
`strictUtf8` is strict UTF-8 decoding of those bytes (`some s` iff they
are valid UTF-8); `lossyUtf8` is lossy replacement decoding of them. -/
structure FileData where
  walkStat : Option Nat
  statSize : Option Nat
  readBytes : Option (List Nat)
  strictUtf8 : Option String
  lossyUtf8 : String

/-- The configuration shared by both pipelines (output path, progress and
profiling omitted: they do not affect records or counters). -/
structure Config where
  include_all : Bool
  threshold_mb : ℚ
  debug : Bool

/-- The Rust threshold conversion `(threshold_mb * 1024.0 * 1024.0) as u64`:
multiply by 1048576 and truncate toward zero, saturating at 0 (`as u64` on
a negative `f64`).  Modelled exactly over `ℚ`; the `f64` rounding of the
product is not modelled (it agrees whenever the exact product is not within
`f64` rounding error of an integer, in particular on every integral-MB
threshold). -/
def thresholdBytesOfMb (q : ℚ) : Nat := (⌊q * 1048576⌋).toNat

/-- One per-file outcome: a skip (skipped counter increment) or exactly one
formatted record (processed counter increment). -/
inductive Outcome where
  | skip : Outcome
  | record : String → Outcome
deriving DecidableEq

/-- The literal written when the content cannot be read as text. -/
def unreadableMarker : String := "[Binary file or read error]"

/-- The 80-character `=` delimiter line. -/
def eq80 : String := String.mk (List.replicate 80 '=')

/-- The formatted block both pipelines emit for one included file:
delimiter, `File:` line, `Size:` line, delimiter, blank line, payload,
blank line.  main.rs builds it with `writeln!` calls and core.rs as one
string; the bytes coincide. -/
def mkRecord (relPath : String) (sizeStr : String) (body : String) : String :=
  eq80 ++ "\n" ++ "File: " ++ relPath ++ "\n" ++ "Size: " ++ sizeStr ++ "\n"
    ++ eq80 ++ "\n" ++ "\n" ++ body ++ "\n" ++ "\n"

/-- Models `fs::read_to_string` (main.rs content read): fails when the
byte read fails or the bytes are not valid UTF-8. -/
def read_to_string (fd : FileData) : Option String :=
  match fd.readBytes with
  | none => none
  | some _ => fd.strictUtf8

/-- Modelled from the spec: `utils::read_file_content`, which core.rs
calls but which is absent from src/.  Per §4.3 of the spec it reads the
whole file (buffered below the 1 MiB cutover, memory-mapped at or above —
the two strategies decode identically, so the cutover does not appear
below), decodes strictly as UTF-8, falls back to lossy replacement
decoding when strict decoding fails, and returns an error only when the
I/O itself fails (the caller converts that to the unreadable marker). -/
def read_file_content (fd : FileData) (_file_size : Nat) : Except Unit String :=
  match fd.readBytes with
  | none => .error ()
  | some _ =>
    match fd.strictUtf8 with
    | some s => .ok s
    | none => .ok fd.lossyUtf8

/-- The shared skip decision (main.rs lines 156-180, core.rs lines 85-108):
when `include_all` is not set, first `is_binary_file(file_path)?`, then the
strict size comparison `file_size > threshold_bytes`; when `include_all`
is set, never skip. -/
def skip_decision (include_all : Bool) (threshold_bytes : Nat)
    (c : FileCandidate) (fd : FileData) (file_size : Nat) : Except Unit Bool :=
  if include_all then .ok false
  else
    match is_binary_file c.ext fd.readBytes with
    | .error e => .error e
    | .ok true => .ok true
    | .ok false => .ok (decide (file_size > threshold_bytes))

/-- The per-candidate step of the sequential pipeline (main.rs loop body):
`fs::metadata(file_path)?` (fatal on failure), the skip decision, then a
record whose payload comes from `fs::read_to_string`, with the unreadable
marker on failure. -/
def stepSeq (include_all : Bool) (threshold_bytes : Nat)
    (c : FileCandidate) (fd : FileData) : Except Unit Outcome :=
  match fd.statSize with
  | none => .error ()
  | some file_size =>
    match skip_decision include_all threshold_bytes c fd file_size with
    | .error e => .error e
    | .ok true => .ok .skip
    | .ok false =>
      let body :=
        match read_to_string fd with
        | some contents => contents
        | none => unreadableMarker
      .ok (.record (mkRecord c.relPath (format_file_size file_size) body))

/-- The per-candidate step of the parallel pipeline (core.rs closure):
identical to `stepSeq` except the payload comes from
`utils::read_file_content`. -/
def stepPar (include_all : Bool) (threshold_bytes : Nat)
    (c : FileCandidate) (fd : FileData) : Except Unit Outcome :=
  match fd.statSize with
  | none => .error ()
  | some file_size =>
    match skip_decision include_all threshold_bytes c fd file_size with
    | .error e => .error e
    | .ok true => .ok .skip
    | .ok false =>
      let body :=
        match read_file_content fd file_size with
        | .ok contents => contents
        | .error _ => unreadableMarker
      .ok (.record (mkRecord c.relPath (format_file_size file_size) body))

/-- Discovery (both pipelines): the walked regular files, pre-filtered by
`should_exclude_file` (which consults the discovery-time metadata).
`entries` are the regular files the walk yields, in walk order. -/
def discover (entries : List (FileCandidate × FileData)) :
    List (FileCandidate × FileData) :=
  entries.filter (fun e => !should_exclude_file e.1.path e.2.walkStat)

/-- Runs a per-candidate step over the candidate list, accumulating the
written records and the processed/skipped counters; a step error (the `?`
on `fs::metadata`) aborts the whole run.  In core.rs the iteration is
`par_iter().try_for_each` and the records land in Aggregator-acquisition
order — an arbitrary permutation of this canonical order — so statements
about the parallel pipeline's records are made up to multiset equality. -/
def runFrom (step : FileCandidate → FileData → Except Unit Outcome) :
    List (FileCandidate × FileData) → List String × Nat × Nat →
    Except Unit (List String × Nat × Nat)
  | [], acc => .ok acc
  | e :: rest, acc =>
    match step e.1 e.2 with
    | .error err => .error err
    | .ok .skip => runFrom step rest (acc.1, acc.2.1, acc.2.2 + 1)
    | .ok (.record r) => runFrom step rest (acc.1 ++ [r], acc.2.1 + 1, acc.2.2)

/-- The sequential pipeline of main.rs: convert the threshold once,
discover, then fold the per-file step from empty output and zero
counters.  The result is the written records in order together with the
final `(processed_files, skipped_files)`. -/
def convert_repository_to_text_seq (cfg : Config)
    (entries : List (FileCandidate × FileData)) :
    Except Unit (List String × Nat × Nat) :=
  let threshold_bytes := thresholdBytesOfMb cfg.threshold_mb
  runFrom (stepSeq cfg.include_all threshold_bytes) (discover entries) ([], 0, 0)

/-- The parallel pipeline of core.rs: same conversion and discovery; an
empty candidate list returns early with nothing written; otherwise the
candidates are processed by `par_iter().try_for_each` with the same
per-file semantics (records modelled in canonical candidate order, see
`runFrom`). -/
def convert_repository_to_text_par (cfg : Config)
    (entries : List (FileCandidate × FileData)) :
    Except Unit (List String × Nat × Nat) :=
  let threshold_bytes := thresholdBytesOfMb cfg.threshold_mb
  let files := discover entries
  if files.isEmpty then .ok ([], 0, 0)
  else runFrom (stepPar cfg.include_all threshold_bytes) files ([], 0, 0)

/-- Witness inputs for the threshold boundary: a plain `.rs` candidate with
stat answers exactly at and one byte above the converted 1 MB threshold. -/
def wBoundaryCand : FileCandidate := ⟨"m.rs".data, "m.rs", some ['r', 's']⟩

def wBoundaryDataT : FileData :=
  ⟨some 1, some (thresholdBytesOfMb 1), none, none, ""⟩

def wBoundaryDataT1 : FileData :=
  ⟨some 1, some (thresholdBytesOfMb 1 + 1), none, none, ""⟩

/-- Counterexample inputs for C3: a small included text-extension file
whose two bytes are not valid UTF-8 (two lone 0xFF bytes). -/
def cexUtf8Cand : FileCandidate := ⟨"a.txt".data, "a.txt", some ['t', 'x', 't']⟩

def cexUtf8Data : FileData :=
  ⟨some 2, some 2, some [255, 255], none, "��"⟩

/-- Counterexample inputs for C4: a candidate whose metadata is readable
during the walk but whose processing-time stat fails (the file vanished
in between). -/
def cexStatCand : FileCandidate := ⟨"b.txt".data, "b.txt", some ['t', 'x', 't']⟩

def cexStatData : FileData := ⟨some 5, none, none, none, ""⟩

/-- Witness input for C4: a candidate whose stat succeeds but whose
content read fails. -/
def wReadFailData : FileData := ⟨some 7, some 7, none, none, ""⟩

/-- Witness inputs shared by the run-level witnesses: one well-behaved
two-byte UTF-8 file under the default-free configuration. -/
def wCand : FileCandidate := ⟨"a.txt".data, "a.txt", some ['t', 'x', 't']⟩

def wData : FileData := ⟨some 2, some 2, some [104, 105], some "hi", "hi"⟩

def wCfg : Config := ⟨false, 1, false⟩

def wRecord : String := mkRecord "a.txt" "2 B" "hi"

/-- Witness inputs for the include_all override: a half-megabyte file with
a recognized binary extension (and a failing content read). -/
def wPngCand : FileCandidate := ⟨"p.png".data, "p.png", some ['p', 'n', 'g']⟩

def wPngData : FileData := ⟨some 900000, some 900000, none, none, ""⟩

/-! ## C8: characterizing should_exclude_file on component lists -/

/-- Renders a component list as a `/`-separated Unix path string (no
leading, trailing or doubled separators). -/
def joinSegs : List (List Char) → List Char
  | [] => []
  | [s] => s
  | s :: s2 :: rest => s ++ '/' :: joinSegs (s2 :: rest)

/-- Transcribes claim C8's condition on a path given by its components:
(1) some full path segment equals an excluded directory name
case-insensitively, or (2) the final component equals an excluded file
name case-sensitively, or (3) the file is empty or gone.  This is the
claim-side definition, kept verbatim for comparison with
`should_exclude_file`. -/
def claimPathExcluded (segs : List (List Char)) (statSize : Option Nat) :
    Bool :=
  segs.any (fun s => excludedDirs.contains (s.map Char.toLower)) ||
  (match segs.getLast? with
   | some s => excludedPatterns.contains s
   | none => false) ||
  is_file_empty_or_nonexistent statSize

/-- The amended condition: as the claim, except that the directory-name
rule (1) only matches a segment that is followed by a separator, i.e. a
non-final component. -/
def amendedPathExcluded (segs : List (List Char)) (statSize : Option Nat) :
    Bool :=
  segs.dropLast.any (fun s => excludedDirs.contains (s.map Char.toLower)) ||
  (match segs.getLast? with
   | some s => excludedPatterns.contains s
   | none => false) ||
  is_file_empty_or_nonexistent statSize

/-! ## Helper lemmas -/

theorem thresholdBytesOfMb_natCast (m : Nat) :
    thresholdBytesOfMb m = m * 1048576 := by
  unfold thresholdBytesOfMb
  rw [show ((m : ℚ) * 1048576) = ((m * 1048576 : ℕ) : ℚ) by push_cast; ring]
  rw [Int.floor_natCast]
  exact Int.toNat_natCast _

theorem thresholdBytesOfMb_one : thresholdBytesOfMb 1 = 1048576 := by
  have h := thresholdBytesOfMb_natCast 1
  simpa using h

theorem is_binary_file_ok (ext : Option (List Char))
    (rr : Option (List Nat)) : ∃ b, is_binary_file ext rr = .ok b := by
  by_cases hx : extIsBinary ext
  · exact ⟨true, by simp [is_binary_file, hx]⟩
  · cases rr with
    | none => exact ⟨false, by simp [is_binary_file, hx]⟩
    | some bytes =>
      by_cases h0 : (0 : Nat) ∈ bytes.take 8192
      · exact ⟨true, by simp [is_binary_file, hx, h0]⟩
      · exact ⟨decide (3 * (bytes.take 8192).length <
            10 * nonPrintableCount (bytes.take 8192)),
          by simp [is_binary_file, hx, h0]⟩

theorem skip_decision_ok (ia : Bool) (tb : Nat) (c : FileCandidate)
    (fd : FileData) (n : Nat) :
    ∃ b, skip_decision ia tb c fd n = .ok b := by
  unfold skip_decision
  cases ia with
  | true => exact ⟨false, rfl⟩
  | false =>
    obtain ⟨b, hb⟩ := is_binary_file_ok c.ext fd.readBytes
    cases b with
    | true => exact ⟨true, by simp [hb]⟩
    | false => exact ⟨decide (tb < n), by simp [hb]⟩

theorem stepSeq_ok (ia : Bool) (tb : Nat) (c : FileCandidate)
    (fd : FileData) (n : Nat) (hstat : fd.statSize = some n) :
    ∃ o, stepSeq ia tb c fd = .ok o := by
  obtain ⟨b, hb⟩ := skip_decision_ok ia tb c fd n
  cases b with
  | true => exact ⟨.skip, by simp [stepSeq, hstat, hb]⟩
  | false =>
    cases hrd : read_to_string fd with
    | none =>
      exact ⟨.record (mkRecord c.relPath (format_file_size n)
        unreadableMarker), by simp [stepSeq, hstat, hb, hrd]⟩
    | some contents =>
      exact ⟨.record (mkRecord c.relPath (format_file_size n) contents),
        by simp [stepSeq, hstat, hb, hrd]⟩

theorem stepPar_ok (ia : Bool) (tb : Nat) (c : FileCandidate)
    (fd : FileData) (n : Nat) (hstat : fd.statSize = some n) :
    ∃ o, stepPar ia tb c fd = .ok o := by
  obtain ⟨b, hb⟩ := skip_decision_ok ia tb c fd n
  cases b with
  | true => exact ⟨.skip, by simp [stepPar, hstat, hb]⟩
  | false =>
    cases hrd : read_file_content fd n with
    | error err =>
      exact ⟨.record (mkRecord c.relPath (format_file_size n)
        unreadableMarker), by simp [stepPar, hstat, hb, hrd]⟩
    | ok contents =>
      exact ⟨.record (mkRecord c.relPath (format_file_size n) contents),
        by simp [stepPar, hstat, hb, hrd]⟩

theorem runFrom_counts (step : FileCandidate → FileData → Except Unit Outcome) :
    ∀ (files : List (FileCandidate × FileData)) (rs : List String) (a b : Nat)
      (recs : List String) (p s : Nat),
      runFrom step files (rs, a, b) = .ok (recs, p, s) →
      p + s = a + b + files.length ∧ recs.length + a = p + rs.length := by
  intro files
  induction files with
  | nil =>
    intro rs a b recs p s h
    simp only [runFrom, Except.ok.injEq, Prod.mk.injEq] at h
    obtain ⟨h1, h2, h3⟩ := h
    subst h1; subst h2; subst h3
    simp only [List.length_nil]
    omega
  | cons e rest ih =>
    intro rs a b recs p s h
    simp only [runFrom] at h
    cases hstep : step e.1 e.2 with
    | error err => rw [hstep] at h; cases h
    | ok o =>
      rw [hstep] at h
      cases o with
      | skip =>
        have hr := ih rs a (b + 1) recs p s h
        simp only [List.length_cons]
        omega
      | record r =>
        have hr := ih (rs ++ [r]) (a + 1) b recs p s h
        simp only [List.length_append, List.length_cons,
          List.length_nil] at hr
        simp only [List.length_cons]
        omega

theorem runFrom_congr
    (step1 step2 : FileCandidate → FileData → Except Unit Outcome) :
    ∀ (files : List (FileCandidate × FileData))
      (acc : List String × Nat × Nat),
      (∀ e ∈ files, step1 e.1 e.2 = step2 e.1 e.2) →
      runFrom step1 files acc = runFrom step2 files acc := by
  intro files
  induction files with
  | nil => intro acc _; rfl
  | cons e rest ih =>
    intro acc hsame
    have he : step1 e.1 e.2 = step2 e.1 e.2 := hsame e (by simp)
    have hrest : ∀ x ∈ rest, step1 x.1 x.2 = step2 x.1 x.2 :=
      fun x hx => hsame x (by simp [hx])
    simp only [runFrom, he]
    cases step2 e.1 e.2 with
    | error err => rfl
    | ok o => cases o <;> exact ih _ hrest

theorem runFrom_ok (step : FileCandidate → FileData → Except Unit Outcome) :
    ∀ (files : List (FileCandidate × FileData))
      (acc : List String × Nat × Nat),
      (∀ e ∈ files, ∃ o, step e.1 e.2 = .ok o) →
      ∃ res, runFrom step files acc = .ok res := by
  intro files
  induction files with
  | nil => intro acc _; exact ⟨acc, rfl⟩
  | cons e rest ih =>
    intro acc hsteps
    obtain ⟨o, ho⟩ := hsteps e (by simp)
    have hrest : ∀ x ∈ rest, ∃ o, step x.1 x.2 = .ok o :=
      fun x hx => hsteps x (by simp [hx])
    simp only [runFrom, ho]
    cases o with
    | skip => exact ih _ hrest
    | record r => exact ih _ hrest

/-! ## Claim theorems -/

/-- C9: the size formatter prints `0 B`, `1.0 KB`, `1.5 KB` and `1.0 MB` on
0, 1024, 1536 and 1048576 bytes respectively; in general it uses base-1024
units from B/KB/MB/GB, an integer with no decimal in the byte range and
exactly one decimal digit for every larger unit. -/
theorem format_file_size_spec :
    format_file_size 0 = "0 B" ∧ format_file_size 1024 = "1.0 KB" ∧
    format_file_size 1536 = "1.5 KB" ∧ format_file_size 1048576 = "1.0 MB" ∧
    ∀ n : Nat,
      (n < 1024 → format_file_size n = toString n ++ " B") ∧
      (1024 ≤ n → ∃ (i f : Nat) (u : String), u ∈ ["KB", "MB", "GB"] ∧ f < 10 ∧
        format_file_size n = toString i ++ "." ++ toString f ++ " " ++ u) := by
  refine ⟨rfl, rfl, rfl, rfl, fun n => ⟨fun h => ?_, fun h => ?_⟩⟩
  · unfold format_file_size
    simp [h]
  · have h1 : ¬ n < 1024 := by omega
    by_cases h2 : n < 1024 * 1024
    · refine ⟨roundHalfEven (10 * n) (1024 ^ 1) / 10,
        roundHalfEven (10 * n) (1024 ^ 1) % 10, "KB", by simp,
        Nat.mod_lt _ (by norm_num), ?_⟩
      unfold format_file_size
      simp [h1, h2, sizeUnits]
    · by_cases h3 : n < 1024 * 1024 * 1024
      · refine ⟨roundHalfEven (10 * n) (1024 ^ 2) / 10,
          roundHalfEven (10 * n) (1024 ^ 2) % 10, "MB", by simp,
          Nat.mod_lt _ (by norm_num), ?_⟩
        unfold format_file_size
        simp [h1, h2, h3, sizeUnits]
      · refine ⟨roundHalfEven (10 * n) (1024 ^ 3) / 10,
          roundHalfEven (10 * n) (1024 ^ 3) % 10, "GB", by simp,
          Nat.mod_lt _ (by norm_num), ?_⟩
        unfold format_file_size
        simp [h1, h2, h3, sizeUnits]

/-- C9 witness: the general clause evaluated at 2048 bytes. -/
theorem format_file_size_spec_witness :
    (1024 : Nat) ≤ 2048 ∧ ∃ (i f : Nat) (u : String), u ∈ ["KB", "MB", "GB"] ∧ f < 10 ∧
      format_file_size 2048 = toString i ++ "." ++ toString f ++ " " ++ u :=
  ⟨by norm_num, (format_file_size_spec.2.2.2.2 2048).2 (by norm_num)⟩

/-- C2: with `include_all` unset and for a non-binary candidate, a file of
exactly the converted byte threshold is included (the step yields a
record) and a file one byte larger is skipped as oversized, in both
pipelines; the conversion multiplies the megabyte value by 1048576 (shown
exactly for whole-MB thresholds). -/
theorem size_threshold_boundary (cfg : Config) (c : FileCandidate)
    (fdT fdT1 : FileData) (hall : cfg.include_all = false)
    (hbinT : is_binary_file c.ext fdT.readBytes = .ok false)
    (hbinT1 : is_binary_file c.ext fdT1.readBytes = .ok false)
    (hT : fdT.statSize = some (thresholdBytesOfMb cfg.threshold_mb))
    (hT1 : fdT1.statSize = some (thresholdBytesOfMb cfg.threshold_mb + 1)) :
    (∀ m : Nat, thresholdBytesOfMb m = m * 1048576) ∧
    (∃ r, stepSeq cfg.include_all (thresholdBytesOfMb cfg.threshold_mb) c fdT
      = .ok (.record r)) ∧
    stepSeq cfg.include_all (thresholdBytesOfMb cfg.threshold_mb) c fdT1
      = .ok .skip ∧
    (∃ r, stepPar cfg.include_all (thresholdBytesOfMb cfg.threshold_mb) c fdT
      = .ok (.record r)) ∧
    stepPar cfg.include_all (thresholdBytesOfMb cfg.threshold_mb) c fdT1
      = .ok .skip := by
  rw [hall]
  have hsdT : skip_decision false (thresholdBytesOfMb cfg.threshold_mb) c fdT
      (thresholdBytesOfMb cfg.threshold_mb) = .ok false := by
    simp [skip_decision, hbinT]
  have hsdT1 : skip_decision false (thresholdBytesOfMb cfg.threshold_mb) c fdT1
      (thresholdBytesOfMb cfg.threshold_mb + 1) = .ok true := by
    simp [skip_decision, hbinT1]
  refine ⟨thresholdBytesOfMb_natCast, ?_, ?_, ?_, ?_⟩
  · cases hrd : read_to_string fdT with
    | none => exact ⟨mkRecord c.relPath
        (format_file_size (thresholdBytesOfMb cfg.threshold_mb))
        unreadableMarker, by simp [stepSeq, hT, hsdT, hrd]⟩
    | some contents => exact ⟨mkRecord c.relPath
        (format_file_size (thresholdBytesOfMb cfg.threshold_mb)) contents,
        by simp [stepSeq, hT, hsdT, hrd]⟩
  · simp [stepSeq, hT1, hsdT1]
  · cases hrd : read_file_content fdT (thresholdBytesOfMb cfg.threshold_mb) with
    | error err => exact ⟨mkRecord c.relPath
        (format_file_size (thresholdBytesOfMb cfg.threshold_mb))
        unreadableMarker, by simp [stepPar, hT, hsdT, hrd]⟩
    | ok contents => exact ⟨mkRecord c.relPath
        (format_file_size (thresholdBytesOfMb cfg.threshold_mb)) contents,
        by simp [stepPar, hT, hsdT, hrd]⟩
  · simp [stepPar, hT1, hsdT1]

/-- C2 witness: the boundary at a 1 MB threshold. -/
theorem size_threshold_boundary_witness :
    thresholdBytesOfMb 1 = 1 * 1048576 ∧
    (∃ r, stepSeq false (thresholdBytesOfMb 1) wBoundaryCand wBoundaryDataT
      = .ok (.record r)) ∧
    stepSeq false (thresholdBytesOfMb 1) wBoundaryCand wBoundaryDataT1
      = .ok .skip := by
  have h := size_threshold_boundary ⟨false, 1, false⟩ wBoundaryCand
    wBoundaryDataT wBoundaryDataT1 rfl rfl rfl rfl rfl
  exact ⟨h.1 1, h.2.1, h.2.2.1⟩

/-- C5: for a candidate whose extension is not in the binary table and
whose sample read succeeds, a NUL byte anywhere in the sampled window
forces the binary verdict; with no NUL the verdict is text exactly when
the control-character fraction is at most 30 percent (binary only when it
strictly exceeds 30 percent). -/
theorem binary_sampling_boundary (ext : Option (List Char)) (bytes : List Nat)
    (hext : extIsBinary ext = false) :
    ((0 : Nat) ∈ bytes.take 8192 →
      is_binary_file ext (some bytes) = .ok true) ∧
    ((0 : Nat) ∉ bytes.take 8192 →
      (10 * nonPrintableCount (bytes.take 8192) ≤ 3 * (bytes.take 8192).length →
        is_binary_file ext (some bytes) = .ok false) ∧
      (3 * (bytes.take 8192).length < 10 * nonPrintableCount (bytes.take 8192) →
        is_binary_file ext (some bytes) = .ok true)) := by
  refine ⟨fun h0 => by simp [is_binary_file, hext, h0],
    fun h0 => ⟨fun hle => ?_, fun hgt => ?_⟩⟩
  · have hred : is_binary_file ext (some bytes) = .ok (decide
        (3 * (bytes.take 8192).length <
          10 * nonPrintableCount (bytes.take 8192))) := by
      simp [is_binary_file, hext, h0]
    rw [hred, Except.ok.injEq, decide_eq_false_iff_not]
    omega
  · have hred : is_binary_file ext (some bytes) = .ok (decide
        (3 * (bytes.take 8192).length <
          10 * nonPrintableCount (bytes.take 8192))) := by
      simp [is_binary_file, hext, h0]
    rw [hred, Except.ok.injEq, decide_eq_true_eq]
    exact hgt

/-- C5 witness: a NUL-bearing sample is binary; a clean three-byte sample
with no control characters is text. -/
theorem binary_sampling_boundary_witness :
    is_binary_file (some ['t', 'x', 't']) (some [0, 65]) = .ok true ∧
    is_binary_file (some ['t', 'x', 't']) (some [65, 66, 10]) = .ok false :=
  ⟨(binary_sampling_boundary (some ['t', 'x', 't']) [0, 65]
      (by decide)).1 (by decide),
   ((binary_sampling_boundary (some ['t', 'x', 't']) [65, 66, 10]
      (by decide)).2 (by decide)).1 (by decide)⟩

/-- C6: `is_binary_file` never produces its error variant, and when the
sampling read fails (for a candidate that passes the extension fast path)
the verdict is "not binary", so extraction is attempted. -/
theorem is_binary_file_total_fail_open :
    (∀ (ext : Option (List Char)) (rr : Option (List Nat)),
      ∃ b, is_binary_file ext rr = .ok b) ∧
    (∀ ext, extIsBinary ext = false → is_binary_file ext none = .ok false) := by
  refine ⟨is_binary_file_ok, fun ext hx => ?_⟩
  simp [is_binary_file, hx]

/-- C6 witness: the fail-open verdict on an extension-less path with a
failing read, and totality on a binary sample. -/
theorem is_binary_file_total_fail_open_witness :
    is_binary_file none none = .ok false ∧
    ∃ b, is_binary_file (some ['r', 's']) (some [0]) = .ok b :=
  ⟨is_binary_file_total_fail_open.2 none rfl,
   is_binary_file_total_fail_open.1 (some ['r', 's']) (some [0])⟩

set_option maxRecDepth 8192 in
/-- C3 counterexample: on readable bytes that are not valid UTF-8 the
sequential pipeline (main.rs uses `fs::read_to_string`) writes the
unreadable marker as the record payload — not the lossy decoding, which
would give a different record. -/
theorem seq_invalid_utf8_yields_marker_cex :
    convert_repository_to_text_seq ⟨false, 1, false⟩
      [(cexUtf8Cand, cexUtf8Data)] =
      .ok ([mkRecord "a.txt" "2 B" unreadableMarker], 1, 0) ∧
    mkRecord "a.txt" "2 B" unreadableMarker ≠
      mkRecord "a.txt" "2 B" cexUtf8Data.lossyUtf8 := by
  constructor
  · show runFrom (stepSeq false (thresholdBytesOfMb 1)) _ _ = _
    rw [thresholdBytesOfMb_one]
    rfl
  · decide

/-- C3 (amended): on readable non-UTF-8 bytes of an included candidate,
the parallel pipeline (core.rs via `read_file_content`, modelled from the
spec) lossily decodes them into the record payload, while the sequential
pipeline writes the unreadable marker instead. -/
theorem par_invalid_utf8_lossy_payload (ia : Bool) (tb : Nat)
    (c : FileCandidate) (fd : FileData) (n : Nat) (bs : List Nat)
    (hstat : fd.statSize = some n)
    (hskip : skip_decision ia tb c fd n = .ok false)
    (hread : fd.readBytes = some bs)
    (hdec : fd.strictUtf8 = none) :
    stepPar ia tb c fd =
      .ok (.record (mkRecord c.relPath (format_file_size n) fd.lossyUtf8)) ∧
    stepSeq ia tb c fd =
      .ok (.record (mkRecord c.relPath (format_file_size n)
        unreadableMarker)) := by
  constructor
  · simp [stepPar, hstat, hskip, read_file_content, hread, hdec]
  · simp [stepSeq, hstat, hskip, read_to_string, hread, hdec]

/-- C3 witness: the amended behaviour on the concrete invalid-UTF-8 file. -/
theorem par_invalid_utf8_lossy_payload_witness :
    stepPar false 1048576 cexUtf8Cand cexUtf8Data =
      .ok (.record (mkRecord "a.txt" "2 B" "��")) ∧
    stepSeq false 1048576 cexUtf8Cand cexUtf8Data =
      .ok (.record (mkRecord "a.txt" "2 B" unreadableMarker)) :=
  par_invalid_utf8_lossy_payload false 1048576 cexUtf8Cand cexUtf8Data 2
    [255, 255] rfl rfl rfl rfl

/-- C4 counterexample: a stat failure on a discovered candidate aborts
both pipelines (the `?` on `fs::metadata` propagates), contradicting the
claim that a failure to stat never aborts the run. -/
theorem stat_failure_aborts_cex :
    convert_repository_to_text_seq ⟨false, 1, false⟩
      [(cexStatCand, cexStatData)] = .error () ∧
    convert_repository_to_text_par ⟨false, 1, false⟩
      [(cexStatCand, cexStatData)] = .error () := by
  constructor <;> rfl

/-- C4 (amended): once the processing-time stat succeeds, a per-candidate
step never errors — a failure to open/read the file or a decode failure
yields a skip or an unreadable-marker record and the run continues; only
the stat failure itself is fatal. -/
theorem soft_failures_never_abort (ia : Bool) (tb : Nat) (c : FileCandidate)
    (fd : FileData) (n : Nat) (hstat : fd.statSize = some n) :
    (∃ o, stepSeq ia tb c fd = .ok o) ∧ (∃ o, stepPar ia tb c fd = .ok o) ∧
    (fd.readBytes = none →
      (stepSeq ia tb c fd = .ok .skip ∨
        stepSeq ia tb c fd = .ok (.record (mkRecord c.relPath
          (format_file_size n) unreadableMarker))) ∧
      (stepPar ia tb c fd = .ok .skip ∨
        stepPar ia tb c fd = .ok (.record (mkRecord c.relPath
          (format_file_size n) unreadableMarker)))) := by
  refine ⟨stepSeq_ok ia tb c fd n hstat, stepPar_ok ia tb c fd n hstat,
    fun hread => ?_⟩
  obtain ⟨b, hb⟩ := skip_decision_ok ia tb c fd n
  cases b with
  | true =>
    exact ⟨Or.inl (by simp [stepSeq, hstat, hb]),
      Or.inl (by simp [stepPar, hstat, hb])⟩
  | false =>
    refine ⟨Or.inr ?_, Or.inr ?_⟩
    · simp [stepSeq, hstat, hb, read_to_string, hread]
    · simp [stepPar, hstat, hb, read_file_content, hread]

/-- C4 witness: the soft-failure guarantees at a concrete candidate whose
read fails. -/
theorem soft_failures_never_abort_witness :
    (∃ o, stepSeq false 1048576 cexStatCand wReadFailData = .ok o) ∧
    (∃ o, stepPar false 1048576 cexStatCand wReadFailData = .ok o) ∧
    ((stepSeq false 1048576 cexStatCand wReadFailData = .ok .skip ∨
      stepSeq false 1048576 cexStatCand wReadFailData =
        .ok (.record (mkRecord "b.txt" (format_file_size 7)
          unreadableMarker))) ∧
     (stepPar false 1048576 cexStatCand wReadFailData = .ok .skip ∨
      stepPar false 1048576 cexStatCand wReadFailData =
        .ok (.record (mkRecord "b.txt" (format_file_size 7)
          unreadableMarker)))) := by
  have h := soft_failures_never_abort false 1048576 cexStatCand
    wReadFailData 7 rfl
  exact ⟨h.1, h.2.1, h.2.2 rfl⟩

theorem stepSeq_eq_stepPar (ia : Bool) (tb : Nat) (c : FileCandidate)
    (fd : FileData) (hread : fd.readBytes.isSome)
    (hdec : fd.strictUtf8.isSome) :
    stepSeq ia tb c fd = stepPar ia tb c fd := by
  obtain ⟨bs, hbs⟩ := Option.isSome_iff_exists.mp hread
  obtain ⟨str, hstr⟩ := Option.isSome_iff_exists.mp hdec
  cases hstat : fd.statSize with
  | none => simp [stepSeq, stepPar, hstat]
  | some n =>
    obtain ⟨b, hsd⟩ := skip_decision_ok ia tb c fd n
    cases b with
    | true => simp [stepSeq, stepPar, hstat, hsd]
    | false =>
      simp [stepSeq, stepPar, hstat, hsd, read_to_string,
        read_file_content, hbs, hstr]

/-- C1: in every run of either pipeline that completes without a fatal
error, the final counters sum to the number of discovered candidates and
the number of written records equals the processed counter — each
discovered candidate contributed exactly one of a skip-increment or one
record with a processed-increment. -/
theorem counters_partition_candidates (cfg : Config)
    (entries : List (FileCandidate × FileData))
    (recs : List String) (p s : Nat) (recsP : List String) (pP sP : Nat)
    (hseq : convert_repository_to_text_seq cfg entries = .ok (recs, p, s))
    (hpar : convert_repository_to_text_par cfg entries = .ok (recsP, pP, sP)) :
    (p + s = (discover entries).length ∧ recs.length = p) ∧
    (pP + sP = (discover entries).length ∧ recsP.length = pP) := by
  constructor
  · have h := runFrom_counts
      (stepSeq cfg.include_all (thresholdBytesOfMb cfg.threshold_mb))
      (discover entries) [] 0 0 recs p s hseq
    simp only [List.length_nil] at h
    omega
  · simp only [convert_repository_to_text_par] at hpar
    by_cases hemp : (discover entries).isEmpty
    · rw [if_pos hemp] at hpar
      simp only [Except.ok.injEq, Prod.mk.injEq] at hpar
      obtain ⟨h1, h2, h3⟩ := hpar
      subst h1; subst h2; subst h3
      rw [List.isEmpty_iff] at hemp
      simp [hemp]
    · rw [if_neg hemp] at hpar
      have h := runFrom_counts
        (stepPar cfg.include_all (thresholdBytesOfMb cfg.threshold_mb))
        (discover entries) [] 0 0 recsP pP sP hpar
      simp only [List.length_nil] at h
      omega

/-- C1 witness: the counter partition on a one-candidate run. -/
theorem counters_partition_candidates_witness :
    ((1 + 0 = (discover [(wCand, wData)]).length ∧
        ([wRecord] : List String).length = 1) ∧
     (1 + 0 = (discover [(wCand, wData)]).length ∧
        ([wRecord] : List String).length = 1)) :=
  counters_partition_candidates wCfg [(wCand, wData)] [wRecord] 1 0
    [wRecord] 1 0
    (by simp only [convert_repository_to_text_seq, wCfg,
          thresholdBytesOfMb_one]
        rfl)
    (by simp only [convert_repository_to_text_par, wCfg,
          thresholdBytesOfMb_one]
        rfl)

/-- C7: with `include_all` set, the binary and oversize rules are
bypassed — the per-candidate step of either pipeline always produces a
record once the stat succeeds, whatever the extension, content or size —
while the path-based pre-filter applies unchanged: discovery keeps
exactly the candidates `should_exclude_file` admits. -/
theorem include_all_bypasses_content_rules (tb : Nat) (c : FileCandidate)
    (fd : FileData) (n : Nat) (entries : List (FileCandidate × FileData))
    (hstat : fd.statSize = some n) :
    (∃ r, stepSeq true tb c fd = .ok (.record r)) ∧
    (∃ r, stepPar true tb c fd = .ok (.record r)) ∧
    (∀ e ∈ discover entries,
      should_exclude_file e.1.path e.2.walkStat = false) ∧
    (∀ e ∈ entries, should_exclude_file e.1.path e.2.walkStat = true →
      e ∉ discover entries) := by
  have hsd : skip_decision true tb c fd n = .ok false := rfl
  refine ⟨?_, ?_, ?_, ?_⟩
  · cases hrd : read_to_string fd with
    | none => exact ⟨mkRecord c.relPath (format_file_size n)
        unreadableMarker, by simp [stepSeq, hstat, hsd, hrd]⟩
    | some contents => exact ⟨mkRecord c.relPath (format_file_size n)
        contents, by simp [stepSeq, hstat, hsd, hrd]⟩
  · cases hrd : read_file_content fd n with
    | error err => exact ⟨mkRecord c.relPath (format_file_size n)
        unreadableMarker, by simp [stepPar, hstat, hsd, hrd]⟩
    | ok contents => exact ⟨mkRecord c.relPath (format_file_size n)
        contents, by simp [stepPar, hstat, hsd, hrd]⟩
  · intro e he
    have := List.mem_filter.mp he
    simpa using this.2
  · intro e _ hex hmem
    have := List.mem_filter.mp hmem
    simp [hex] at this

/-- C7 witness: a binary-extension file far above the default 0.1 MB
threshold (converted: 104857 bytes) is still included under include_all. -/
theorem include_all_bypasses_content_rules_witness :
    (∃ r, stepSeq true 104857 wPngCand wPngData = .ok (.record r)) ∧
    (∃ r, stepPar true 104857 wPngCand wPngData = .ok (.record r)) := by
  have h := include_all_bypasses_content_rules 104857 wPngCand wPngData
    900000 [] rfl
  exact ⟨h.1, h.2.1⟩

/-- C10: over a filesystem where no per-file I/O operation of either
pipeline fails on the discovered candidates — every stat and content read
succeeds and every payload decodes strictly as UTF-8 — the sequential and
parallel pipelines produce the same records up to multiset equality
(order disregarded; the parallel record order is modelled canonically,
any physical interleaving being a permutation of it) and the same final
processed/skipped counters. -/
theorem seq_par_refinement (cfg : Config)
    (entries : List (FileCandidate × FileData))
    (hok : ∀ e ∈ discover entries,
      e.2.statSize.isSome ∧ e.2.readBytes.isSome ∧ e.2.strictUtf8.isSome) :
    ∃ recs p s recsP,
      convert_repository_to_text_seq cfg entries = .ok (recs, p, s) ∧
      convert_repository_to_text_par cfg entries = .ok (recsP, p, s) ∧
      (recsP : Multiset String) = (recs : Multiset String) := by
  have hsteps : ∀ e ∈ discover entries,
      ∃ o, stepSeq cfg.include_all (thresholdBytesOfMb cfg.threshold_mb)
        e.1 e.2 = .ok o := by
    intro e he
    obtain ⟨n, hn⟩ := Option.isSome_iff_exists.mp (hok e he).1
    exact stepSeq_ok _ _ _ _ n hn
  obtain ⟨res, hres⟩ := runFrom_ok
    (stepSeq cfg.include_all (thresholdBytesOfMb cfg.threshold_mb))
    (discover entries) ([], 0, 0) hsteps
  obtain ⟨recs, p, s⟩ := res
  have hcong := runFrom_congr
    (stepSeq cfg.include_all (thresholdBytesOfMb cfg.threshold_mb))
    (stepPar cfg.include_all (thresholdBytesOfMb cfg.threshold_mb))
    (discover entries) ([], 0, 0)
    (fun e he => stepSeq_eq_stepPar _ _ _ _ (hok e he).2.1 (hok e he).2.2)
  refine ⟨recs, p, s, recs, hres, ?_, rfl⟩
  simp only [convert_repository_to_text_par]
  by_cases hemp : (discover entries).isEmpty
  · rw [if_pos hemp]
    rw [List.isEmpty_iff] at hemp
    have hres2 := hres
    rw [hemp] at hres2
    simp only [runFrom, Except.ok.injEq] at hres2
    rw [← hres2]
  · rw [if_neg hemp, ← hcong]
    exact hres

/-- C10 witness: agreement of the two pipelines on a one-candidate
filesystem with no I/O failures. -/
theorem seq_par_refinement_witness :
    ∃ recs p s recsP,
      convert_repository_to_text_seq wCfg [(wCand, wData)] =
        .ok (recs, p, s) ∧
      convert_repository_to_text_par wCfg [(wCand, wData)] =
        .ok (recsP, p, s) ∧
      (recsP : Multiset String) = (recs : Multiset String) :=
  seq_par_refinement wCfg [(wCand, wData)] (by decide)

/-- C8 counterexample: for the two-component path `a/node_modules` — a
nonempty existing regular file named `node_modules` — the claim's
condition (1) holds (the final segment equals an excluded directory
name), yet `should_exclude_file` does not exclude it: the code requires a
separator after the matched name. -/
theorem final_component_dir_name_cex :
    joinSegs ["a".data, "node_modules".data] = "a/node_modules".data ∧
    claimPathExcluded ["a".data, "node_modules".data] (some 5) = true ∧
    should_exclude_file "a/node_modules".data (some 5) = false := by
  refine ⟨by decide, by decide, by decide⟩

theorem toLower_shift_ne (n : Nat) (h1 : 65 ≤ n) (h2 : n ≤ 90) :
    Char.ofNat (n + 32) ≠ '/' ∧ Char.ofNat (n + 32) ≠ '\\' := by
  interval_cases n <;> exact ⟨by decide, by decide⟩

theorem toLower_eq_slash {c : Char} (h : c.toLower = '/') : c = '/' := by
  simp only [Char.toLower] at h
  split at h
  · next hc => exact absurd h (toLower_shift_ne c.toNat hc.1 hc.2).1
  · exact h

theorem toLower_eq_bslash {c : Char} (h : c.toLower = '\\') : c = '\\' := by
  simp only [Char.toLower] at h
  split at h
  · next hc => exact absurd h (toLower_shift_ne c.toNat hc.1 hc.2).2
  · exact h

theorem slash_not_mem_map_toLower {s : List Char} (h : '/' ∉ s) :
    '/' ∉ s.map Char.toLower := by
  intro hmem
  obtain ⟨a, ha, hal⟩ := List.mem_map.mp hmem
  exact h (toLower_eq_slash hal ▸ ha)

theorem bslash_not_mem_map_toLower {s : List Char} (h : '\\' ∉ s) :
    '\\' ∉ s.map Char.toLower := by
  intro hmem
  obtain ⟨a, ha, hal⟩ := List.mem_map.mp hmem
  exact h (toLower_eq_bslash hal ▸ ha)

theorem mem_joinSegs {c : Char} : ∀ {segs : List (List Char)},
    c ∈ joinSegs segs → c = '/' ∨ ∃ s ∈ segs, c ∈ s := by
  intro segs
  induction segs with
  | nil => intro h; simp [joinSegs] at h
  | cons s rest ih =>
    cases rest with
    | nil =>
      intro h
      right
      exact ⟨s, by simp, by simpa [joinSegs] using h⟩
    | cons s2 rest2 =>
      intro h
      simp only [joinSegs] at h
      rcases List.mem_append.mp h with h1 | h2
      · right; exact ⟨s, by simp, h1⟩
      · rcases List.mem_cons.mp h2 with h3 | h4
        · left; exact h3
        · rcases ih h4 with h5 | ⟨t, ht, hct⟩
          · left; exact h5
          · right; exact ⟨t, by simp [ht], hct⟩

theorem map_toLower_joinSegs : ∀ segs : List (List Char),
    (joinSegs segs).map Char.toLower =
      joinSegs (segs.map (List.map Char.toLower)) := by
  intro segs
  induction segs with
  | nil => rfl
  | cons s rest ih =>
    cases rest with
    | nil => rfl
    | cons s2 rest2 =>
      simp only [joinSegs, List.map_append, List.map_cons, ih,
        show Char.toLower '/' = '/' from rfl]

theorem seg_prefix_iff : ∀ (d s J : List Char), '/' ∉ d → '/' ∉ s →
    ((d ++ ['/']) <+: (s ++ '/' :: J) ↔ d = s) := by
  intro d
  induction d with
  | nil =>
    intro s J _ hs
    cases s with
    | nil => simp
    | cons a s' =>
      rw [List.mem_cons] at hs
      push_neg at hs
      obtain ⟨ha, _⟩ := hs
      simp [List.cons_prefix_cons, ha]
  | cons e d' ih =>
    intro s J hd hs
    rw [List.mem_cons] at hd
    push_neg at hd
    obtain ⟨he, hd'⟩ := hd
    have he2 : e ≠ '/' := fun h => he h.symm
    cases s with
    | nil =>
      simp only [List.nil_append, List.cons_append, List.cons_prefix_cons]
      simp [he2]
    | cons a s' =>
      rw [List.mem_cons] at hs
      push_neg at hs
      obtain ⟨_, hs'⟩ := hs
      simp only [List.cons_append, List.cons_prefix_cons]
      rw [ih s' J hd' hs']
      simp [List.cons.injEq]

theorem slash_head_infix_append : ∀ (s r t : List Char), '/' ∉ s →
    (('/' :: t) <:+: (s ++ r) ↔ ('/' :: t) <:+: r) := by
  intro s
  induction s with
  | nil => intro r t _; simp
  | cons a s' ih =>
    intro r t hs
    rw [List.mem_cons] at hs
    push_neg at hs
    obtain ⟨ha, hs'⟩ := hs
    rw [List.cons_append, List.infix_cons_iff]
    constructor
    · rintro (hp | hi)
      · rw [List.cons_prefix_cons] at hp
        exact absurd hp.1 ha
      · exact (ih r t hs').mp hi
    · intro h
      exact Or.inr ((ih r t hs').mpr h)

theorem dir_hit_iff (d : List Char) (hd : '/' ∉ d) :
    ∀ segs : List (List Char), segs ≠ [] → (∀ s ∈ segs, '/' ∉ s) →
    ((('/' :: (d ++ ['/'])) <:+: joinSegs segs ∨
      (d ++ ['/']) <+: joinSegs segs) ↔ d ∈ segs.dropLast) := by
  intro segs
  induction segs with
  | nil => intro h; exact absurd rfl h
  | cons s rest ih =>
    intro _ hall
    have hs : '/' ∉ s := hall s (by simp)
    cases rest with
    | nil =>
      simp only [joinSegs, List.dropLast_single]
      constructor
      · rintro (hi | hp)
        · exact absurd (hi.subset (by simp)) hs
        · exact absurd (hp.subset (by simp)) hs
      · intro h
        simp at h
    | cons s2 rest2 =>
      have hrest : ∀ x ∈ s2 :: rest2, '/' ∉ x :=
        fun x hx => hall x (by simp [hx])
      have hih := ih (by simp) hrest
      simp only [joinSegs]
      rw [slash_head_infix_append s ('/' :: joinSegs (s2 :: rest2))
        (d ++ ['/']) hs]
      rw [List.infix_cons_iff]
      rw [seg_prefix_iff d s (joinSegs (s2 :: rest2)) hd hs]
      rw [List.dropLast_cons₂, List.mem_cons]
      rw [← hih]
      rw [List.cons_prefix_cons]
      simp only [true_and, eq_self_iff_true]
      tauto

theorem joinSegs_eq_intercalate : ∀ segs : List (List Char),
    joinSegs segs = List.intercalate ['/'] segs := by
  intro segs
  induction segs with
  | nil => rfl
  | cons s rest ih =>
    cases rest with
    | nil => simp [joinSegs, List.intercalate]
    | cons s2 rest2 =>
      simp only [joinSegs, ih, List.intercalate, List.intersperse_cons₂,
        List.flatten_cons]
      simp

theorem splitOn_joinSegs (segs : List (List Char)) (hne : segs ≠ [])
    (hs : ∀ s ∈ segs, '/' ∉ s) : (joinSegs segs).splitOn '/' = segs := by
  rw [joinSegs_eq_intercalate]
  exact List.splitOn_intercalate segs '/' hs hne

theorem rustFileName_joinSegs (segs : List (List Char)) (hne : segs ≠ [])
    (hwf : ∀ s ∈ segs, s ≠ [] ∧ '/' ∉ s ∧ s ≠ ['.'] ∧ s ≠ ['.', '.']) :
    rustFileName (joinSegs segs) = segs.getLast hne := by
  simp only [rustFileName]
  rw [splitOn_joinSegs segs hne (fun s hsx => (hwf s hsx).2.1)]
  have hfilter : segs.filter (fun s => !s.isEmpty && s != ['.']) = segs := by
    rw [List.filter_eq_self]
    intro a ha
    obtain ⟨h1, _, h3, _⟩ := hwf a ha
    simp [List.isEmpty_iff, h1, h3]
  rw [hfilter, List.getLast?_eq_getLast_of_ne_nil hne]
  have hlast := hwf (segs.getLast hne) (List.getLast_mem hne)
  simp [hlast.2.2.2]

theorem if_chain_or (a b c : Bool) :
    (if a then true else if b then true else if c then true else false) =
      (a || b || c) := by
  cases a <;> cases b <;> cases c <;> rfl

theorem should_exclude_file_eq_or (path : List Char) (statSize : Option Nat) :
    should_exclude_file path statSize =
      (excludedDirs.any (fun d =>
        decide (('/' :: (d ++ ['/'])) <:+: path.map Char.toLower) ||
        decide ((d ++ ['/']) <+: path.map Char.toLower) ||
        decide (('\\' :: (d ++ ['\\'])) <:+: path.map Char.toLower) ||
        decide ((d ++ ['\\']) <+: path.map Char.toLower)) ||
      excludedPatterns.any (fun pat => rustFileName path == pat) ||
      is_file_empty_or_nonexistent statSize) := by
  simp only [should_exclude_file]
  exact if_chain_or _ _ _

theorem excludedDirs_wf : ∀ d ∈ excludedDirs, '/' ∉ d ∧ '\\' ∉ d := by
  decide

/-- C8 (amended): on a well-formed component list (nonempty components
without separators and without `.`/`..` components), `should_exclude_file`
excludes exactly when a non-final segment equals an excluded directory
name case-insensitively, or the final component equals an excluded file
name case-sensitively, or the file is empty or gone — the directory rule
matches only segments followed by a separator. -/
theorem should_exclude_file_characterization
    (segs : List (List Char)) (statSize : Option Nat) (hne : segs ≠ [])
    (hwf : ∀ s ∈ segs, s ≠ [] ∧ '/' ∉ s ∧ '\\' ∉ s ∧ s ≠ ['.'] ∧
      s ≠ ['.', '.']) :
    should_exclude_file (joinSegs segs) statSize =
      amendedPathExcluded segs statSize := by
  have hB : excludedPatterns.any
      (fun pat => rustFileName (joinSegs segs) == pat) =
      (match segs.getLast? with
       | some s => excludedPatterns.contains s
       | none => false) := by
    rw [rustFileName_joinSegs segs hne (fun s hsx =>
      ⟨(hwf s hsx).1, (hwf s hsx).2.1, (hwf s hsx).2.2.2.1,
        (hwf s hsx).2.2.2.2⟩)]
    rw [List.getLast?_eq_getLast_of_ne_nil hne]
    simp only [List.contains_eq_any_beq]
  rw [should_exclude_file_eq_or, map_toLower_joinSegs]
  set lsegs := segs.map (List.map Char.toLower) with hlsegs
  have hlne : lsegs ≠ [] := by
    simp [hlsegs, hne]
  have hlsl : ∀ s ∈ lsegs, '/' ∉ s := by
    intro s hsx
    obtain ⟨a, ha, rfl⟩ := List.mem_map.mp hsx
    exact slash_not_mem_map_toLower (hwf a ha).2.1
  have hlbs : '\\' ∉ joinSegs lsegs := by
    intro hmem
    rcases mem_joinSegs hmem with h | ⟨s, hsx, hin⟩
    · exact absurd h (by decide)
    · obtain ⟨a, ha, rfl⟩ := List.mem_map.mp hsx
      exact bslash_not_mem_map_toLower (hwf a ha).2.2.1 hin
  have hA : (excludedDirs.any (fun d =>
        decide (('/' :: (d ++ ['/'])) <:+: joinSegs lsegs) ||
        decide ((d ++ ['/']) <+: joinSegs lsegs) ||
        decide (('\\' :: (d ++ ['\\'])) <:+: joinSegs lsegs) ||
        decide ((d ++ ['\\']) <+: joinSegs lsegs)))
      = segs.dropLast.any
          (fun s => excludedDirs.contains (s.map Char.toLower)) := by
    rw [Bool.eq_iff_iff, List.any_eq_true, List.any_eq_true]
    constructor
    · rintro ⟨d, hdmem, hcheck⟩
      obtain ⟨hds, hdb⟩ := excludedDirs_wf d hdmem
      simp only [Bool.or_eq_true, decide_eq_true_eq] at hcheck
      have hhit : d ∈ lsegs.dropLast := by
        rcases hcheck with ((h | h) | h) | h
        · exact (dir_hit_iff d hds lsegs hlne hlsl).mp (Or.inl h)
        · exact (dir_hit_iff d hds lsegs hlne hlsl).mp (Or.inr h)
        · exact absurd (h.subset (by simp)) hlbs
        · exact absurd (h.subset (by simp)) hlbs
      rw [hlsegs, ← List.map_dropLast] at hhit
      obtain ⟨s, hsmem, rfl⟩ := List.mem_map.mp hhit
      exact ⟨s, hsmem, List.elem_iff.mpr hdmem⟩
    · rintro ⟨s, hsmem, hcont⟩
      have hdmem : (s.map Char.toLower) ∈ excludedDirs :=
        List.elem_iff.mp hcont
      obtain ⟨hds, hdb⟩ := excludedDirs_wf _ hdmem
      refine ⟨s.map Char.toLower, hdmem, ?_⟩
      simp only [Bool.or_eq_true, decide_eq_true_eq]
      have hhit : (s.map Char.toLower) ∈ lsegs.dropLast := by
        rw [hlsegs, ← List.map_dropLast]
        exact List.mem_map.mpr ⟨s, hsmem, rfl⟩
      rcases (dir_hit_iff _ hds lsegs hlne hlsl).mpr hhit with h | h
      · exact Or.inl (Or.inl (Or.inl h))
      · exact Or.inl (Or.inl (Or.inr h))
  rw [hA, hB]
  rfl

/-- C8 witness: the characterization at the two-component path
`node_modules/a.js` of a 3-byte file. -/
theorem should_exclude_file_characterization_witness :
    should_exclude_file (joinSegs ["node_modules".data, "a.js".data])
      (some 3) =
      amendedPathExcluded ["node_modules".data, "a.js".data] (some 3) :=
  should_exclude_file_characterization ["node_modules".data, "a.js".data]
    (some 3) (by decide) (by decide)

end Textify
